import Mathlib

/-!
Verification of the score-card parser and dashboard logic of `App.py`
(park-golf score dashboard).  The parser `parse_score_files` is embedded
shallowly: rows are the `str()` forms of the first two cells, the date
regex is modelled as a decidable prefix matcher, Python `float` is
modelled on the finite decimal fragment that can reach it (as an integer
mantissa over a power of ten, interpreted into `ℚ` for the statements),
and the presentation layer (sorting, filtering, summary metrics) is
embedded as pure list functions.
-/

namespace Parkgolf

/-- Python `str.strip()` whitespace characters. -/
def isPySpace (c : Char) : Bool :=
  c = ' ' || c = '\t' || c = '\n' || c = '\r' || c = '\x0b' || c = '\x0c'

/-- Python `str.strip()`: drop leading and trailing whitespace
(applied to both cells at App.py lines 40-41). -/
def pyStrip (s : String) : String :=
  ⟨(((s.data.dropWhile isPySpace).reverse).dropWhile isPySpace).reverse⟩

/-- Characters of the separator class of the date regex
`(\d{2,4})[\.|/]?(\d{2})[\.|/]?(\d{2})` in `parse_score_files` (line 45).
The class is written with a literal `|`, so it contains `.`, `|` and `/`. -/
def isSep (c : Char) : Bool := c = '.' || c = '|' || c = '/'

/-- Consume exactly `n` decimal digits from the front of `cs`,
returning the remaining characters, or `none` if fewer are available. -/
def consumeDigits : Nat → List Char → Option (List Char)
  | 0, cs => some cs
  | _ + 1, [] => none
  | n + 1, c :: cs => if c.isDigit then consumeDigits n cs else none

/-- Consume one optional separator, the `[\.|/]?` piece of the regex. -/
def consumeSepOpt : List Char → List Char
  | [] => []
  | c :: cs => if isSep c then cs else c :: cs

/-- Match the tail `[\.|/]?(\d{2})[\.|/]?(\d{2})` of the date regex
against a prefix of `cs`. -/
def matchTail (cs : List Char) : Bool :=
  match consumeDigits 2 (consumeSepOpt cs) with
  | none => false
  | some cs2 => (consumeDigits 2 (consumeSepOpt cs2)).isSome

/-- Truth value of `re.match(r'(\d{2,4})[\.|/]?(\d{2})[\.|/]?(\d{2})', s)`
(App.py line 45): does some prefix of `s` match?  The group `\d{2,4}` may
take 2, 3 or 4 digits; since a separator is never a digit, each choice is
otherwise deterministic, so the disjunction over the three choices is
exactly the backtracking engine's notion of a match. -/
def dateMatch (s : String) : Bool :=
  (consumeDigits 2 s.data).elim false matchTail ||
  (consumeDigits 3 s.data).elim false matchTail ||
  (consumeDigits 4 s.data).elim false matchTail

/-- `col0.replace('.', '').replace('/', '')` (App.py line 48): remove every
`.` and `/`.  Note the `|` accepted by the regex class is NOT removed. -/
def stripSeps (s : String) : String :=
  ⟨s.data.filter (fun c => !(c = '.' || c = '/'))⟩

/-- Expansion of a length-6 stripped string:
`f"20{raw[:2]}-{raw[2:4]}-{raw[4:]}"` (App.py line 50). -/
def expand6 (raw : String) : String :=
  "20" ++ ⟨raw.data.take 2⟩ ++ "-" ++ ⟨(raw.data.drop 2).take 2⟩ ++ "-" ++ ⟨raw.data.drop 4⟩

/-- Expansion of a length-8 stripped string:
`f"{raw[:4]}-{raw[4:6]}-{raw[6:]}"` (App.py line 52). -/
def expand8 (raw : String) : String :=
  ⟨raw.data.take 4⟩ ++ "-" ++ ⟨(raw.data.drop 4).take 2⟩ ++ "-" ++ ⟨raw.data.drop 6⟩

/-- The guard of the date branch: `if date_match and len(col0) >= 6`
(App.py line 46). -/
def isDateRow (c0 : String) : Bool := dateMatch c0 && decide (6 ≤ c0.length)

/-- The body of the date branch (App.py lines 48-52): update the
current-date cursor when the stripped form has length 6 or 8, otherwise
leave it unchanged.  The row is skipped (`continue`) in every case. -/
def stepDate (cur : Option String) (c0 : String) : Option String :=
  let raw := stripSeps c0
  if raw.length = 6 then some (expand6 raw)
  else if raw.length = 8 then some (expand8 raw)
  else cur

/-- Value of a run of decimal digit characters, most significant first. -/
def digitsVal (cs : List Char) : ℕ :=
  cs.foldl (fun a c => 10 * a + (c.toNat - 48)) 0

/-- The result of a successful Python `float(s)`: the exact value
`mant / 10 ^ fexp`. -/
structure PyNum where
  mant : ℤ
  fexp : ℕ
deriving DecidableEq, Repr

/-- The rational value of a parsed float. -/
def PyNum.toRat (x : PyNum) : ℚ := (x.mant : ℚ) / (10 : ℚ) ^ x.fexp

/-- Model of Python `float(s)` (App.py line 59) on optionally signed finite
decimal literals: an optional sign, a digit run, and an optional `.` with a
digit run, at least one digit in total.  Returns `none` where `float`
raises `ValueError`.  Of the further forms the builtin accepts, `nan` and
infinities fail the `30 <= v <= 150` range check in the source just as
`none` skips the row here, and exponent notation does not occur in score
cells, so the model and the builtin accept the same rows. -/
def pyFloat (s : String) : Option PyNum :=
  let p : ℤ × List Char :=
    match s.data with
    | '-' :: t => (-1, t)
    | '+' :: t => (1, t)
    | t => (1, t)
  let ip := p.2.takeWhile Char.isDigit
  let rest := p.2.dropWhile Char.isDigit
  match rest with
  | [] =>
    if ip.isEmpty then none else some ⟨p.1 * (digitsVal ip : ℤ), 0⟩
  | '.' :: frac =>
    if frac.all Char.isDigit && !(ip.isEmpty && frac.isEmpty) then
      some ⟨p.1 * ((digitsVal ip : ℤ) * (10 : ℤ) ^ frac.length + (digitsVal frac : ℤ)),
            frac.length⟩
    else none
  | _ => none

/-- The range test `30 <= ttl_score <= 150` (App.py line 61), stated on the
real value of the parsed float. -/
def scoreInRange (x : PyNum) : Prop := 30 ≤ x.toRat ∧ x.toRat ≤ 150

/-- The range test is decided by the equivalent integer comparison
`30 * 10 ^ fexp ≤ mant ≤ 150 * 10 ^ fexp`, which the kernel can evaluate. -/
instance scoreInRange.instDecidable : DecidablePred scoreInRange := fun x =>
  decidable_of_iff ((30 : ℤ) * 10 ^ x.fexp ≤ x.mant ∧ x.mant ≤ (150 : ℤ) * 10 ^ x.fexp)
    (by
      unfold scoreInRange PyNum.toRat
      have hpos : (0 : ℚ) < (10 : ℚ) ^ x.fexp := by positivity
      rw [le_div_iff₀ hpos, div_le_iff₀ hpos]
      constructor
      · rintro ⟨h1, h2⟩
        constructor
        · exact_mod_cast h1
        · exact_mod_cast h2
      · rintro ⟨h1, h2⟩
        constructor
        · exact_mod_cast h1
        · exact_mod_cast h2)

/-- Model of Python `int(x)` on a float (App.py line 66): truncation toward
zero of `mant / 10 ^ fexp`. -/
def pyInt (x : PyNum) : ℤ := x.mant.tdiv ((10 : ℤ) ^ x.fexp)

/-- One emitted score record: the dict appended to `all_data`
(App.py lines 62-67) — date (날짜), venue alias (구장), player name (이름),
total score (총점). -/
structure ScoreRecord where
  date : String
  course : String
  name : String
  total : ℤ
deriving DecidableEq, Repr

/-- The sentinel first-cell tokens of the score branch (App.py line 57). -/
def sentinels : List String := ["nan", "TTL", "이름", "None"]

/-- The unknown-date placeholder `"날짜미상"` (App.py line 63). -/
def unknownDate : String := "날짜미상"

/-- One raw CSV row as the loop sees it: the `str()` forms of its first two
cells, or `raise` for a row whose processing raises an exception other than
the `ValueError` caught at line 68 (e.g. a missing second column); such an
exception escapes to the outer `except` and aborts the file. -/
inductive Row where
  | cells (a b : String) : Row
  | raise : Row
deriving DecidableEq, Repr

/-- The body of the row loop of `parse_score_files` (App.py lines 40-69)
for a non-raising row: strip both cells, take the date branch when its
guard holds, otherwise the score branch, returning the updated cursor and
records list. -/
def processRow (course : String) (cur : Option String) (acc : List ScoreRecord)
    (a b : String) : Option String × List ScoreRecord :=
  let c0 := pyStrip a
  let c1 := pyStrip b
  if isDateRow c0 then (stepDate cur c0, acc)
  else if c0 != "" && !(sentinels.contains c0) then
    match pyFloat c1 with
    | some v =>
      if scoreInRange v then
        (cur, acc ++ [{ date := cur.getD unknownDate, course := course,
                        name := c0, total := pyInt v }])
      else (cur, acc)
    | none => (cur, acc)
  else (cur, acc)

/-- Run the row loop over a file's rows, starting from cursor `cur` and the
shared records list `acc`.  The Boolean is true when some row raised and
the rest of the file was abandoned (the outer `except` then warns); records
appended before the raise stay in the shared list. -/
def runRows (course : String) : Option String → List ScoreRecord → List Row →
    List ScoreRecord × Bool
  | _, acc, [] => (acc, false)
  | _, acc, Row.raise :: _ => (acc, true)
  | cur, acc, Row.cells a b :: rest =>
    let s := processRow course cur acc a b
    runRows course s.1 s.2 rest

/-- What the filesystem holds for a configured file name: missing
(`os.path.exists` is false, App.py line 29), `pd.read_csv` itself raises
(line 34), or the file parses to a list of rows. -/
inductive PFile where
  | missing : PFile
  | readError : PFile
  | parsed (rows : List Row) : PFile
deriving DecidableEq

/-- The file loop of `parse_score_files` (App.py lines 28-72) over a tail of
the configured mapping, threading the shared `all_data` list and the list
of file names a warning was shown for. -/
def parseFilesAux (fs : String → PFile) :
    List ScoreRecord × List String → List (String × String) →
    List ScoreRecord × List String
  | st, [] => st
  | st, (n, course) :: rest =>
    match fs n with
    | PFile.missing => parseFilesAux fs st rest
    | PFile.readError => parseFilesAux fs (st.1, st.2 ++ [n]) rest
    | PFile.parsed rows =>
      let r := runRows course none st.1 rows
      parseFilesAux fs (r.1, if r.2 then st.2 ++ [n] else st.2) rest

/-- The fixed file-name → venue-alias mapping (App.py lines 21-26). -/
def files : List (String × String) :=
  [("점수카드_2025 - 양천생태파골.csv", "양천생태"),
   ("점수카드_2025 - 소양강.csv", "소양강"),
   ("점수카드_2025 - 산천어.csv", "화천 산천어"),
   ("점수카드_2025 - 금천한내.csv", "금천 한내")]

/-- `parse_score_files`, parameterised by the filesystem contents: the
records of `all_data` in emission order, and the file names for which a
warning was issued. -/
def parse_score_files (fs : String → PFile) : List ScoreRecord × List String :=
  parseFilesAux fs ([], []) files

/-- The cursor transition of one non-raising row: the date branch updates
the cursor, every other row leaves it unchanged. -/
def stepCursor (cur : Option String) (a : String) : Option String :=
  if isDateRow (pyStrip a) then stepDate cur (pyStrip a) else cur

/-- The records emitted by one non-raising row (empty or a singleton). -/
def rowEmit (course : String) (cur : Option String) (a b : String) : List ScoreRecord :=
  (processRow course cur [] a b).2

/-- The date cursor after scanning a list of rows: the expansion of the most
recent date-marker row, starting from `cur`. -/
def cursorAfter (cur : Option String) (rows : List Row) : Option String :=
  rows.foldl
    (fun cu r =>
      match r with
      | Row.cells a _ => stepCursor cu a
      | Row.raise => cu)
    cur

/-- The records one file's rows contribute, starting from cursor `cur`. -/
def emittedFrom (course : String) (cur : Option String) (rows : List Row) :
    List ScoreRecord :=
  (runRows course cur [] rows).1

/-- The string the loop sees for cell `j` of a line with the given fields:
the field itself, or `"nan"` when the field is absent (pandas pads short
lines with `NaN`) or empty (pandas reads an empty field as `NaN`), since
`str(nan)` is `"nan"`. -/
def cellStr (fields : List String) (j : ℕ) : String :=
  match fields[j]? with
  | some s => if s = "" then "nan" else s
  | none => "nan"

/-- Model of `pd.read_csv(filename, header=None)` (App.py line 34) on the
non-blank lines of a file, each given as its list of fields (pandas skips
blank lines).  The column count is fixed by the first line: an empty file
raises `EmptyDataError` and a later line with more fields raises
`ParserError`, both caught by the outer `except` before the row loop runs;
when the table has fewer than two columns, `row[1]` raises `KeyError` at
the very first iterated row (every row of such a file raises); otherwise
every row yields the `str()` forms of cells 0 and 1 and the loop can never
raise.  (Numeric dtype inference cannot change whether a cell raises, so it
is immaterial to the abort analysis.) -/
def readCSV (lines : List (List String)) : PFile :=
  match lines with
  | [] => PFile.readError
  | first :: rest =>
    if rest.any (fun r => first.length < r.length) then PFile.readError
    else if first.length < 2 then
      PFile.parsed ((first :: rest).map (fun _ => Row.raise))
    else
      PFile.parsed ((first :: rest).map (fun f => Row.cells (cellStr f 0) (cellStr f 1)))

/-!
Presentation layer (App.py lines 87-119).  After parsing, the date column
is converted with `pd.to_datetime(..., errors='coerce')`; a record's
converted date is modelled as `Option ℤ` (a timestamp, `none` for `NaT`,
which `sort_values` places last).  The table is sorted ascending by date,
then the sidebar venue and player filters derive a view, over which the
summary metrics are computed.
-/

/-- A record of the presentation-layer table: the converted date
(`none` = `NaT`), venue alias, player name, and total score. -/
structure PRecord where
  pdate : Option ℤ
  course : String
  name : String
  total : ℤ
deriving DecidableEq, Repr

/-- The `sort_values('날짜')` key order: dates ascending, `NaT` last
(the pandas default `na_position='last'`). -/
def dateLe (a b : Option ℤ) : Bool :=
  match a, b with
  | _, none => true
  | none, some _ => false
  | some x, some y => decide (x ≤ y)

/-- Record order used by the date sort. -/
def rowLe (r s : PRecord) : Prop := dateLe r.pdate s.pdate = true

instance rowLe.instDecidable : DecidableRel rowLe := fun r s =>
  instDecidableEqBool (dateLe r.pdate s.pdate) true

instance rowLe.instIsTotal : IsTotal PRecord rowLe := by
  constructor
  intro r s
  unfold rowLe dateLe
  rcases r.pdate with _ | x <;> rcases s.pdate with _ | y <;> simp
  exact Int.le_total x y

instance rowLe.instIsTrans : IsTrans PRecord rowLe := by
  constructor
  intro r s t
  unfold rowLe dateLe
  rcases r.pdate with _ | x <;> rcases s.pdate with _ | y <;>
    rcases t.pdate with _ | z <;> simp
  exact fun h1 h2 => le_trans h1 h2

/-- `df = df.sort_values('날짜')` (App.py line 88): sort the full table
ascending by converted date.  (pandas' default quicksort is not stable, so
any date-sorted permutation is a faithful model; insertion sort is used.) -/
def sortByDate (t : List PRecord) : List PRecord := List.insertionSort rowLe t

/-- The venue filter `df[df['구장'].isin(selected_course)]`
(App.py line 101). -/
def venueFilter (sel : List String) (t : List PRecord) : List PRecord :=
  t.filter (fun r => sel.contains r.course)

/-- The player filter (App.py lines 102-103): identity for the
"전체보기" (show-all) selection, otherwise an exact match on the name. -/
def playerFilter (sel : String) (t : List PRecord) : List PRecord :=
  if sel = "전체보기" then t else t.filter (fun r => r.name == sel)

/-- `best_score = filtered_df['총점'].min()` (App.py line 115): `none`
models the `NaN` a pandas min yields on an empty series. -/
def best_score (view : List PRecord) : Option ℤ := (view.map PRecord.total).min?

/-- The rendering `f"{best_score} 타"` (App.py line 116): Python formats the
empty-view `NaN` as the text `nan`; nothing crashes. -/
def renderBest (o : Option ℤ) : String :=
  (match o with
   | some m => toString m
   | none => "nan") ++ " 타"

/-- `recent_score = filtered_df.iloc[-1]['총점'] if not filtered_df.empty
else 0` (App.py line 118): the last row of the view, or the 0 placeholder. -/
def recent_score (view : List PRecord) : ℤ :=
  match view.getLast? with
  | some r => r.total
  | none => 0

/-- `pandas.unique` order: distinct values in order of first occurrence
(used by `df['이름'].unique()`, App.py line 95). -/
def uniqueFirst (l : List String) : List String :=
  l.foldl (fun acc x => if acc.contains x then acc else acc ++ [x]) []

/-- Number of records carrying name `x`. -/
def countOf (l : List String) (x : String) : ℕ :=
  (l.filter (fun y => y == x)).length

/-- `df['이름'].value_counts().idxmax()` (App.py line 94): the name with the
highest record count; `value_counts` keeps first-occurrence order among
equal counts, and `idxmax` takes the first maximum. -/
def top_player (l : List String) : Option String :=
  match uniqueFirst l with
  | [] => none
  | x :: xs => some ((x :: xs).foldl (fun b y => if countOf l b < countOf l y then y else b) x)

/-- The options of the player selectbox: `["전체보기"] + list(df['이름'].unique())`
(App.py line 95). -/
def playerOptions (names : List String) : List String :=
  "전체보기" :: uniqueFirst names

/-- The default selection of the player selectbox: the code passes
`index=1`, i.e. the element at position 1 of the options list
(App.py line 95). -/
def selected_player_default (names : List String) : Option String :=
  (playerOptions names)[1]?

/-- The filtered view of the dashboard: the full table sorted ascending by
date (line 88), then the venue filter (line 101), then the player filter
(lines 102-103). -/
def filteredView (sel : List String) (p : String) (t : List PRecord) : List PRecord :=
  playerFilter p (venueFilter sel (sortByDate t))

/-! Supporting lemmas. -/

/-- One row maps the state `(cur, acc)` to `(stepCursor cur a, acc ++ rowEmit …)`. -/
theorem processRow_eq (course : String) (cur : Option String) (acc : List ScoreRecord)
    (a b : String) :
    processRow course cur acc a b = (stepCursor cur a, acc ++ rowEmit course cur a b) := by
  simp only [rowEmit, processRow, stepCursor]
  by_cases hd : isDateRow (pyStrip a)
  · simp [hd]
  · by_cases hp : pyStrip a ≠ "" ∧ pyStrip a ∉ sentinels
    · rcases hf : pyFloat (pyStrip b) with _ | x
      · simp [hd, hp, hf]
      · by_cases hr : scoreInRange x
        · simp [hd, hp, hf, hr]
        · simp [hd, hp, hf, hr]
    · simp [hd, hp]

theorem runRows_cons_cells (course : String) (cur : Option String)
    (acc : List ScoreRecord) (a b : String) (rest : List Row) :
    runRows course cur acc (Row.cells a b :: rest) =
      runRows course (stepCursor cur a) (acc ++ rowEmit course cur a b) rest := by
  simp [runRows, processRow_eq]

theorem cursorAfter_cons_cells (cur : Option String) (a b : String) (rest : List Row) :
    cursorAfter cur (Row.cells a b :: rest) = cursorAfter (stepCursor cur a) rest := by
  simp [cursorAfter]

/-- The shared accumulator just prefixes a file's own records. -/
theorem runRows_fst_acc (course : String) (cur : Option String)
    (acc : List ScoreRecord) (xs : List Row) :
    (runRows course cur acc xs).1 = acc ++ emittedFrom course cur xs := by
  induction xs generalizing cur acc with
  | nil => simp [runRows, emittedFrom]
  | cons r rest ih =>
    cases r with
    | raise => simp [runRows, emittedFrom]
    | cells a b =>
      rw [emittedFrom, runRows_cons_cells, runRows_cons_cells, ih, ih]
      simp

/-- Splitting the row scan at a raise-free prefix. -/
theorem runRows_append (course : String) (cur : Option String)
    (acc : List ScoreRecord) (xs ys : List Row) (hx : Row.raise ∉ xs) :
    runRows course cur acc (xs ++ ys) =
      runRows course (cursorAfter cur xs) ((runRows course cur acc xs).1) ys := by
  induction xs generalizing cur acc with
  | nil => simp [runRows, cursorAfter]
  | cons r rest ih =>
    cases r with
    | raise => exact absurd (List.mem_cons_self _ _) hx
    | cells a b =>
      have hx' : Row.raise ∉ rest := fun h => hx (List.mem_cons_of_mem _ h)
      rw [List.cons_append, runRows_cons_cells, runRows_cons_cells,
        cursorAfter_cons_cells, ih _ _ hx']

/-- The records of a concatenation, when the prefix never raises. -/
theorem emittedFrom_append (course : String) (cur : Option String)
    (xs ys : List Row) (hx : Row.raise ∉ xs) :
    emittedFrom course cur (xs ++ ys) =
      emittedFrom course cur xs ++ emittedFrom course (cursorAfter cur xs) ys := by
  rw [emittedFrom, runRows_append course cur [] xs ys hx, runRows_fst_acc,
    runRows_fst_acc, List.nil_append]

/-- A score row emits exactly one record, carrying the cursor (or the
unknown-date placeholder), the venue alias, the stripped name, and the
truncated score. -/
theorem rowEmit_score (course : String) (cur : Option String) (a b : String)
    (x : PyNum) (hd : isDateRow (pyStrip a) = false)
    (hn : pyStrip a ≠ "") (hs : pyStrip a ∉ sentinels)
    (hf : pyFloat (pyStrip b) = some x) (hr : scoreInRange x) :
    rowEmit course cur a b =
      [{ date := cur.getD unknownDate, course := course,
         name := pyStrip a, total := pyInt x }] := by
  unfold rowEmit processRow
  have hg : (pyStrip a != "" && !(sentinels.contains (pyStrip a))) = true := by
    simp [hn, hs]
  simp [hd, hg, hf, hr, hn, hs]

theorem consumeDigits_length {n : ℕ} :
    ∀ {cs rest : List Char}, consumeDigits n cs = some rest → cs.length = n + rest.length := by
  induction n with
  | zero =>
    intro cs rest h
    simp [consumeDigits] at h
    simp [h]
  | succ n ih =>
    intro cs rest h
    cases cs with
    | nil => simp [consumeDigits] at h
    | cons c cs =>
      unfold consumeDigits at h
      by_cases hc : c.isDigit
      · simp [hc] at h
        have := ih h
        simp [this]
        omega
      · simp [hc] at h

theorem consumeSepOpt_length (cs : List Char) :
    (consumeSepOpt cs).length ≤ cs.length := by
  cases cs with
  | nil => simp [consumeSepOpt]
  | cons c cs =>
    unfold consumeSepOpt
    by_cases hc : isSep c
    · simp [hc]
    · simp [hc]

theorem matchTail_length {cs : List Char} (h : matchTail cs = true) : 4 ≤ cs.length := by
  rcases h1 : consumeDigits 2 (consumeSepOpt cs) with _ | cs2
  · have hz : matchTail cs = false := by
      unfold matchTail
      rw [h1]
    rw [hz] at h
    simp at h
  · have hz : matchTail cs = (consumeDigits 2 (consumeSepOpt cs2)).isSome := by
      unfold matchTail
      rw [h1]
    rw [hz] at h
    rcases h2 : consumeDigits 2 (consumeSepOpt cs2) with _ | cs3
    · rw [h2] at h
      simp at h
    · have e1 := consumeDigits_length h1
      have e2 := consumeDigits_length h2
      have l1 := consumeSepOpt_length cs
      have l2 := consumeSepOpt_length cs2
      omega

/-- A cell the date regex matches has at least 6 characters, so the
`len(col0) >= 6` conjunct of the guard is automatic. -/
theorem dateMatch_length {s : String} (h : dateMatch s = true) : 6 ≤ s.length := by
  have hlen : s.length = s.data.length := rfl
  unfold dateMatch at h
  rw [Bool.or_eq_true, Bool.or_eq_true] at h
  have key : ∀ k : ℕ, 2 ≤ k →
      (consumeDigits k s.data).elim false matchTail = true → 6 ≤ s.length := by
    intro k hk hmt
    rcases hc : consumeDigits k s.data with _ | rest
    · rw [hc] at hmt
      simp at hmt
    · rw [hc] at hmt
      simp only [Option.elim] at hmt
      have e := consumeDigits_length hc
      have m := matchTail_length hmt
      omega
  rcases h with (h | h) | h
  · exact key 2 (by omega) h
  · exact key 3 (by omega) h
  · exact key 4 (by omega) h

/-- The integer form of the range test `30 <= ttl_score <= 150`. -/
theorem scoreInRange_iff (x : PyNum) :
    scoreInRange x ↔
      (30 : ℤ) * 10 ^ x.fexp ≤ x.mant ∧ x.mant ≤ (150 : ℤ) * 10 ^ x.fexp := by
  unfold scoreInRange PyNum.toRat
  have hpos : (0 : ℚ) < (10 : ℚ) ^ x.fexp := by positivity
  rw [le_div_iff₀ hpos, div_le_iff₀ hpos]
  constructor
  · rintro ⟨h1, h2⟩
    constructor
    · exact_mod_cast h1
    · exact_mod_cast h2
  · rintro ⟨h1, h2⟩
    constructor
    · exact_mod_cast h1
    · exact_mod_cast h2

/-- A value passing the range test truncates to an integer in `[30, 150]`. -/
theorem pyInt_bounds {x : PyNum} (h : scoreInRange x) :
    30 ≤ pyInt x ∧ pyInt x ≤ 150 := by
  rw [scoreInRange_iff] at h
  obtain ⟨h1, h2⟩ := h
  have hc : (0 : ℤ) < 10 ^ x.fexp := by positivity
  have hm : 0 ≤ x.mant := le_trans (by positivity) h1
  unfold pyInt
  rw [Int.tdiv_eq_ediv hm (le_of_lt hc)]
  constructor
  · rw [Int.le_ediv_iff_mul_le hc]
    exact h1
  · calc x.mant / 10 ^ x.fexp ≤ 150 * 10 ^ x.fexp / 10 ^ x.fexp :=
        Int.ediv_le_ediv hc h2
      _ = 150 := Int.mul_ediv_cancel 150 (ne_of_gt hc)

/-- A date-marker row emits nothing. -/
theorem rowEmit_nil_of_date (course : String) (cur : Option String) (a b : String)
    (hd : isDateRow (pyStrip a) = true) : rowEmit course cur a b = [] := by
  unfold rowEmit processRow
  simp [hd]

/-- A row whose stripped first cell is empty or a sentinel emits nothing,
whatever its second cell holds. -/
theorem rowEmit_nil_of_sentinel (course : String) (cur : Option String) (a b : String)
    (h : pyStrip a = "" ∨ pyStrip a ∈ sentinels) : rowEmit course cur a b = [] := by
  unfold rowEmit processRow
  by_cases hd : isDateRow (pyStrip a)
  · simp [hd]
  · have hp : ¬(pyStrip a ≠ "" ∧ pyStrip a ∉ sentinels) := by
      rcases h with h | h
      · exact fun hc => hc.1 h
      · exact fun hc => hc.2 h
    simp [hd, hp]

/-- When the date guard fails, a record is emitted exactly when the
score-branch conditions all hold. -/
theorem rowEmit_ne_nil_iff (course : String) (cur : Option String) (a b : String)
    (hd : isDateRow (pyStrip a) = false) :
    rowEmit course cur a b ≠ [] ↔
      (pyStrip a ≠ "" ∧ pyStrip a ∉ sentinels ∧
        ∃ x, pyFloat (pyStrip b) = some x ∧ scoreInRange x) := by
  unfold rowEmit processRow
  by_cases hp : pyStrip a ≠ "" ∧ pyStrip a ∉ sentinels
  · rcases hf : pyFloat (pyStrip b) with _ | x
    · simp [hd, hp, hf]
    · by_cases hs : scoreInRange x
      · simp [hd, hp, hf, hs]
      · simp [hd, hp, hf, hs]
  · simp only [hd, Bool.false_eq_true, if_false]
    rw [not_and_or] at hp
    rcases hp with hp | hp
    · rw [not_not] at hp
      simp [hp]
    · rw [not_not] at hp
      simp [hp]

/-- Every record a row emits has its total in `[30, 150]`. -/
theorem rowEmit_total_bounds (course : String) (cur : Option String) (a b : String) :
    ∀ r ∈ rowEmit course cur a b, 30 ≤ r.total ∧ r.total ≤ 150 := by
  intro r hr
  unfold rowEmit processRow at hr
  by_cases hd : isDateRow (pyStrip a)
  · simp [hd] at hr
  · by_cases hp : pyStrip a ≠ "" ∧ pyStrip a ∉ sentinels
    · rcases hf : pyFloat (pyStrip b) with _ | x
      · simp [hd, hp, hf] at hr
      · by_cases hs : scoreInRange x
        · simp [hd, hp, hf, hs] at hr
          rw [hr]
          exact pyInt_bounds hs
        · simp [hd, hp, hf, hs] at hr
    · simp [hd, hp] at hr

/-- The row loop preserves the total bound invariant. -/
theorem runRows_total_bounds (course : String) :
    ∀ (rows : List Row) (cur : Option String) (acc : List ScoreRecord),
      (∀ r ∈ acc, 30 ≤ r.total ∧ r.total ≤ 150) →
      ∀ r ∈ (runRows course cur acc rows).1, 30 ≤ r.total ∧ r.total ≤ 150 := by
  intro rows
  induction rows with
  | nil =>
    intro cur acc hacc r hr
    simp [runRows] at hr
    exact hacc r hr
  | cons row rest ih =>
    intro cur acc hacc r hr
    cases row with
    | raise =>
      simp [runRows] at hr
      exact hacc r hr
    | cells a b =>
      rw [runRows_cons_cells] at hr
      refine ih _ _ ?_ r hr
      intro q hq
      rcases List.mem_append.mp hq with h | h
      · exact hacc q h
      · exact rowEmit_total_bounds course cur a b q h

/-- The file loop preserves the total bound invariant. -/
theorem parseFilesAux_total_bounds (fs : String → PFile) :
    ∀ (fl : List (String × String)) (st : List ScoreRecord × List String),
      (∀ r ∈ st.1, 30 ≤ r.total ∧ r.total ≤ 150) →
      ∀ r ∈ (parseFilesAux fs st fl).1, 30 ≤ r.total ∧ r.total ≤ 150 := by
  intro fl
  induction fl with
  | nil =>
    intro st h r hr
    simp [parseFilesAux] at hr
    exact h r hr
  | cons nc rest ih =>
    intro st h r hr
    obtain ⟨n, course⟩ := nc
    rcases hfn : fs n with _ | _ | rows
    · simp only [parseFilesAux, hfn] at hr
      exact ih st h r hr
    · simp only [parseFilesAux, hfn] at hr
      exact ih (st.1, st.2 ++ [n]) h r hr
    · simp only [parseFilesAux, hfn] at hr
      refine ih _ ?_ r hr
      intro q hq
      exact runRows_total_bounds course rows none st.1 h q hq

theorem rowLe_refl (r : PRecord) : rowLe r r := by
  unfold rowLe dateLe
  cases r.pdate <;> simp

/-- In a `rowLe`-sorted list the last element dominates every element. -/
theorem sorted_last_max :
    ∀ {l : List PRecord}, List.Pairwise rowLe l → ∀ (h : l ≠ []),
      ∀ x ∈ l, rowLe x (l.getLast h) := by
  intro l
  induction l with
  | nil =>
    intro _ h
    exact absurd rfl h
  | cons a l ih =>
    intro hs h x hx
    cases l with
    | nil =>
      rcases List.mem_singleton.mp hx with rfl
      exact rowLe_refl x
    | cons b l' =>
      rw [List.getLast_cons (by simp)]
      rcases List.mem_cons.mp hx with rfl | hx'
      · exact (List.pairwise_cons.mp hs).1 _ (List.getLast_mem (by simp))
      · exact ih (List.pairwise_cons.mp hs).2 (by simp) x hx'

/-- The filtered view of any table is sorted by the date order. -/
theorem filteredView_sorted (sel : List String) (p : String) (t : List PRecord) :
    List.Pairwise rowLe (filteredView sel p t) := by
  have hs : List.Sorted rowLe (sortByDate t) := List.sorted_insertionSort rowLe t
  have h1 : List.Pairwise rowLe (venueFilter sel (sortByDate t)) :=
    List.Pairwise.sublist (List.filter_sublist _) hs
  unfold filteredView playerFilter
  by_cases hp : p = "전체보기"
  · simpa [hp] using h1
  · simp only [hp, if_false]
    exact List.Pairwise.sublist (List.filter_sublist _) h1

/-- `List.min?` of a non-empty list of integers is its least member. -/
theorem intList_min_spec (l : List ℤ) (h : l ≠ []) :
    ∃ m, l.min? = some m ∧ m ∈ l ∧ ∀ x ∈ l, m ≤ x := by
  haveI : Std.Antisymm ((· : ℤ) ≤ ·) := ⟨@fun _ _ h1 h2 => le_antisymm h1 h2⟩
  rcases hm : l.min? with _ | m
  · cases l with
    | nil => exact absurd rfl h
    | cons a l => simp [List.min?] at hm
  · have h1 := (List.min?_eq_some_iff (fun a => le_refl a) (fun a b => min_choice a b)
      (fun a b c => le_min_iff)).mp hm
    exact ⟨m, rfl, h1.1, h1.2⟩

/-- A scan over rows none of which is a date marker leaves the cursor
unchanged. -/
theorem cursorAfter_no_marker :
    ∀ (pre : List Row) (cur : Option String),
      (∀ a b, Row.cells a b ∈ pre → isDateRow (pyStrip a) = false) →
      cursorAfter cur pre = cur := by
  intro pre
  induction pre with
  | nil => intro cur _; rfl
  | cons r rest ih =>
    intro cur h
    cases r with
    | raise =>
      show cursorAfter cur rest = cur
      exact ih cur (fun a b hm => h a b (List.mem_cons_of_mem _ hm))
    | cells a b =>
      have hd := h a b (List.mem_cons_self _ _)
      rw [cursorAfter_cons_cells]
      rw [show stepCursor cur a = cur from by simp [stepCursor, hd]]
      exact ih cur (fun a' b' hm => h a' b' (List.mem_cons_of_mem _ hm))

/-- The row loop never sets the abort flag on a raise-free row list. -/
theorem runRows_no_raise (course : String) :
    ∀ (rows : List Row) (cur : Option String) (acc : List ScoreRecord),
      Row.raise ∉ rows → (runRows course cur acc rows).2 = false := by
  intro rows
  induction rows with
  | nil => intro cur acc _; rfl
  | cons r rest ih =>
    intro cur acc h
    cases r with
    | raise => exact absurd (List.mem_cons_self _ _) h
    | cells a b =>
      rw [runRows_cons_cells]
      exact ih _ _ (fun hm => h (List.mem_cons_of_mem _ hm))

/-! The claims. -/

/-- C1: for a row the parser examines as a potential score row (the date
guard fails on it), a record is emitted iff the stripped first cell is
non-empty and not a sentinel token and the stripped second cell parses as a
number `v` with `30 ≤ v ≤ 150`; every record of any parse has an integer
total in `[30, 150]`; and a row whose stripped first cell is `TTL`, `이름`
or empty never emits a record, whatever its second cell holds. -/
theorem C1_score_row_emission :
    (∀ course cur acc a b, isDateRow (pyStrip a) = false →
      ((processRow course cur acc a b).2 ≠ acc ↔
        (pyStrip a ≠ "" ∧ pyStrip a ∉ sentinels ∧
          ∃ x, pyFloat (pyStrip b) = some x ∧ 30 ≤ x.toRat ∧ x.toRat ≤ 150)))
    ∧ (∀ fs r, r ∈ (parse_score_files fs).1 → 30 ≤ r.total ∧ r.total ≤ 150)
    ∧ (∀ course cur acc a b,
        pyStrip a = "TTL" ∨ pyStrip a = "이름" ∨ pyStrip a = "" →
        (processRow course cur acc a b).2 = acc) := by
  refine ⟨?_, ?_, ?_⟩
  · intro course cur acc a b hd
    rw [processRow_eq]
    have hne : acc ++ rowEmit course cur a b ≠ acc ↔ rowEmit course cur a b ≠ [] := by
      constructor
      · intro h1 h2
        exact h1 (by simp [h2])
      · intro h1 h2
        apply h1
        simpa using congrArg List.length h2
    rw [hne, rowEmit_ne_nil_iff course cur a b hd]
    rfl
  · intro fs r hr
    exact parseFilesAux_total_bounds fs files ([], []) (by simp) r hr
  · intro course cur acc a b h
    rw [processRow_eq]
    have h' : pyStrip a = "" ∨ pyStrip a ∈ sentinels := by
      rcases h with h | h | h
      · exact Or.inr (by rw [h]; decide)
      · exact Or.inr (by rw [h]; decide)
      · exact Or.inl h
    rw [rowEmit_nil_of_sentinel course cur a b h']
    simp

theorem C1_score_row_emission_witness :
    (processRow "c" none [] "A" "80").2 ≠ [] :=
  (C1_score_row_emission.1 "c" none [] "A" "80" (by decide)).mpr
    ⟨by decide, by decide, ⟨80, 0⟩, by decide,
     by norm_num [PyNum.toRat], by norm_num [PyNum.toRat]⟩

/-- C3 counterexample: the cell `"1234567"` matches the date pattern and
its stripped form has length 7 (neither 6 nor 8); the claim predicts the
row falls through to score detection — where, with second cell `"80"`,
all score conditions hold — yet the code emits no record (the `continue`
fires regardless of the stripped length). -/
theorem C3_counterexample :
    dateMatch "1234567" = true ∧
    (stripSeps "1234567").length = 7 ∧
    pyStrip "1234567" ≠ "" ∧ pyStrip "1234567" ∉ sentinels ∧
    pyFloat (pyStrip "80") = some ⟨80, 0⟩ ∧ scoreInRange ⟨80, 0⟩ ∧
    (processRow "c" none [] "1234567" "80").2 = [] := by
  refine ⟨by decide, by decide, by decide, by decide, by decide, by decide, by decide⟩

/-- C3 (amended): a cell matching the date pattern always has length at
least 6, so a matching row always takes the date branch and is skipped
without emitting a record; the cursor is updated (to the length-6 or
length-8 expansion) exactly when the stripped form has length 6 or 8, and
is left unchanged — the row still being skipped — for any other stripped
length. -/
theorem C3_amended_date_marker :
    (∀ c0, dateMatch c0 = true → isDateRow c0 = true)
    ∧ (∀ course cur acc a b, isDateRow (pyStrip a) = true →
        processRow course cur acc a b = (stepDate cur (pyStrip a), acc))
    ∧ (∀ cur c0, (stripSeps c0).length = 6 →
        stepDate cur c0 = some (expand6 (stripSeps c0)))
    ∧ (∀ cur c0, (stripSeps c0).length = 8 →
        stepDate cur c0 = some (expand8 (stripSeps c0)))
    ∧ (∀ cur c0, (stripSeps c0).length ≠ 6 → (stripSeps c0).length ≠ 8 →
        stepDate cur c0 = cur)
    ∧ (∀ course cur acc a b, isDateRow (pyStrip a) = false →
        (processRow course cur acc a b).1 = cur) := by
  refine ⟨?_, ?_, ?_, ?_, ?_, ?_⟩
  · intro c0 h
    simp [isDateRow, h, dateMatch_length h]
  · intro course cur acc a b hd
    rw [processRow_eq, rowEmit_nil_of_date course cur a b hd]
    simp [stepCursor, hd]
  · intro cur c0 h6
    simp [stepDate, h6]
  · intro cur c0 h8
    simp [stepDate, h8]
  · intro cur c0 h6 h8
    simp [stepDate, h6, h8]
  · intro course cur acc a b hd
    rw [processRow_eq]
    simp [stepCursor, hd]

theorem C3_amended_date_marker_witness :
    processRow "c" none [] "24.06.02" "x" = (stepDate none (pyStrip "24.06.02"), []) ∧
    stepDate none "240602" = some (expand6 (stripSeps "240602")) ∧
    stepDate (some "d") "1234567" = some "d" :=
  ⟨C3_amended_date_marker.2.1 "c" none [] "24.06.02" "x" (by decide),
   C3_amended_date_marker.2.2.1 none "240602" (by decide),
   by
     have := C3_amended_date_marker.2.2.2.2.1 (some "d") "1234567" (by decide) (by decide)
     simpa using this⟩

/-- C4 (code bug): on the name column `["A", "B", "B"]` (in date-sorted
order) the most frequent name is `B`, which is what `top_player`
(`value_counts().idxmax()`) computes — but the selectbox is created with
`index=1`, so the default selection is the first distinct name `A`;
`top_player` is computed and never used, contradicting the source comment
"기본값: 가장 기록이 많은 사람" (default: the person with the most
records). -/
theorem C4_default_player_divergence :
    top_player ["A", "B", "B"] = some "B" ∧
    selected_player_default ["A", "B", "B"] = some "A" := by
  refine ⟨by decide, by decide⟩

/-- C8: a configured file that is missing is skipped with no warning and no
record, and a file whose read raises is skipped with a warning naming it;
in both cases the loop continues with the remaining configured files from
the same state. -/
theorem C8_missing_vs_error :
    ∀ (fs : String → PFile) (st : List ScoreRecord × List String)
      (n course : String) (rest : List (String × String)),
      (fs n = PFile.missing →
        parseFilesAux fs st ((n, course) :: rest) = parseFilesAux fs st rest) ∧
      (fs n = PFile.readError →
        parseFilesAux fs st ((n, course) :: rest) =
          parseFilesAux fs (st.1, st.2 ++ [n]) rest) := by
  intro fs st n course rest
  constructor
  · intro h
    simp only [parseFilesAux, h]
  · intro h
    simp only [parseFilesAux, h]

theorem C8_missing_vs_error_witness :
    (parseFilesAux (fun _ => PFile.missing) ([], []) [("f", "c")] =
      parseFilesAux (fun _ => PFile.missing) ([], []) []) ∧
    (parseFilesAux (fun _ => PFile.readError) ([], []) [("f", "c")] =
      parseFilesAux (fun _ => PFile.readError) ([], [] ++ ["f"]) []) :=
  ⟨(C8_missing_vs_error (fun _ => PFile.missing) ([], []) "f" "c" []).1 rfl,
   (C8_missing_vs_error (fun _ => PFile.readError) ([], []) "f" "c" []).2 rfl⟩

/-- C9 counterexample: none of the ways a file can go wrong realises the
claimed premise.  A short line is `NaN`-padded, processed without raising
(the abort flag stays `false`), and earlier rows still emit; a
fewer-than-two-column file turns every row into a raise, so the loop
aborts at its very first row with no record emitted; and a line with extra
fields aborts inside `read_csv` itself, before the row loop runs. -/
theorem C9_counterexample :
    readCSV [["A", "80"], ["B"]] =
      PFile.parsed [Row.cells "A" "80", Row.cells "B" "nan"] ∧
    runRows "c" none [] [Row.cells "A" "80", Row.cells "B" "nan"] =
      ([{ date := unknownDate, course := "c", name := "A", total := 80 }], false) ∧
    readCSV [["A"], ["80"]] = PFile.parsed [Row.raise, Row.raise] ∧
    runRows "c" none [] [Row.raise, Row.raise] = ([], true) ∧
    readCSV [["A", "80"], ["B", "90", "100"]] = PFile.readError := by
  refine ⟨by decide, by decide, by decide, by decide, by decide⟩

/-- C9 (amended): skipping a file on an exception does not roll back the
shared `all_data` list — the row loop and the file loop only append, so
every record present before the exception (in particular every record of
an earlier file) remains in the output — but no file `read_csv` can
deliver raises only after one of its own valid score rows: a delivered
table either has at least two columns, and then no row raises, or fewer,
and then the first iterated row raises; hence a file whose row loop
aborted contributed no records of its own. -/
theorem C9_abort_contributes_nothing :
    (∀ lines rows, readCSV lines = PFile.parsed rows →
      ∀ course cur acc, (runRows course cur acc rows).2 = true →
        (runRows course cur acc rows).1 = acc)
    ∧ (∀ course cur acc rows, ∃ u, (runRows course cur acc rows).1 = acc ++ u)
    ∧ (∀ (fs : String → PFile) (fl : List (String × String)) st,
        ∃ u, (parseFilesAux fs st fl).1 = st.1 ++ u) := by
  refine ⟨?_, ?_, ?_⟩
  · intro lines rows h course cur acc hflag
    cases lines with
    | nil => simp [readCSV] at h
    | cons first rest =>
      unfold readCSV at h
      by_cases hrag : (rest.any (fun r => first.length < r.length)) = true
      · simp [hrag] at h
      · by_cases hc : first.length < 2
        · simp only [hrag, Bool.false_eq_true, if_false, hc, if_true,
            PFile.parsed.injEq] at h
          rw [← h] at hflag ⊢
          simp [runRows]
        · simp only [hrag, Bool.false_eq_true, if_false, hc, if_true,
            PFile.parsed.injEq] at h
          have hnr : Row.raise ∉ rows := by
            rw [← h]
            intro hm
            simp [List.mem_map] at hm
          rw [runRows_no_raise course rows cur acc hnr] at hflag
          simp at hflag
  · intro course cur acc rows
    exact ⟨emittedFrom course cur rows, runRows_fst_acc course cur acc rows⟩
  · intro fs fl
    induction fl with
    | nil =>
      intro st
      exact ⟨[], by simp [parseFilesAux]⟩
    | cons nc rest ih =>
      intro st
      obtain ⟨n, course⟩ := nc
      rcases hfn : fs n with _ | _ | rows
      · obtain ⟨u, hu⟩ := ih st
        exact ⟨u, by simp only [parseFilesAux, hfn]; exact hu⟩
      · obtain ⟨u, hu⟩ := ih (st.1, st.2 ++ [n])
        exact ⟨u, by simp only [parseFilesAux, hfn]; exact hu⟩
      · obtain ⟨u, hu⟩ := ih ((runRows course none st.1 rows).1,
          if (runRows course none st.1 rows).2 then st.2 ++ [n] else st.2)
        refine ⟨emittedFrom course none rows ++ u, ?_⟩
        simp only [parseFilesAux, hfn]
        rw [hu, runRows_fst_acc, List.append_assoc]

theorem C9_abort_contributes_nothing_witness :
    (runRows "c" none [] [Row.raise, Row.raise]).1 = [] :=
  C9_abort_contributes_nothing.1 [["A"], ["80"]] [Row.raise, Row.raise]
    (by decide) "c" none [] (by decide)

/-- C10: the date branch never validates calendar ranges — the cursor is
set by pure string slicing of the stripped digits (length 6: slices at 2
and 4 behind a literal `20`; length 8: slices at 4 and 6), so impossible
calendar values pass through unchanged: the cell `"999999"` sets the
cursor to `"2099-99-99"` and a following score row carries that date. -/
theorem C10_no_calendar_validation :
    (∀ cur c0, isDateRow c0 = true → (stripSeps c0).length = 6 →
      stepDate cur c0 =
        some ("20" ++ ⟨(stripSeps c0).data.take 2⟩ ++ "-" ++
          ⟨((stripSeps c0).data.drop 2).take 2⟩ ++ "-" ++ ⟨(stripSeps c0).data.drop 4⟩))
    ∧ (∀ cur c0, isDateRow c0 = true → (stripSeps c0).length = 8 →
      stepDate cur c0 =
        some (⟨(stripSeps c0).data.take 4⟩ ++ "-" ++
          ⟨((stripSeps c0).data.drop 4).take 2⟩ ++ "-" ++ ⟨(stripSeps c0).data.drop 6⟩))
    ∧ emittedFrom "c" none [Row.cells "999999" "", Row.cells "A" "80"] =
        [{ date := "2099-99-99", course := "c", name := "A", total := 80 }] := by
  refine ⟨?_, ?_, by decide⟩
  · intro cur c0 _ h6
    simp [stepDate, h6, expand6]
  · intro cur c0 _ h8
    simp [stepDate, h8, expand8]

theorem C10_no_calendar_validation_witness :
    stepDate none "999999" =
      some ("20" ++ ⟨(stripSeps "999999").data.take 2⟩ ++ "-" ++
        ⟨((stripSeps "999999").data.drop 2).take 2⟩ ++ "-" ++
        ⟨(stripSeps "999999").data.drop 4⟩) :=
  C10_no_calendar_validation.1 none "999999" (by decide) (by decide)

/-- C2: a score row emits a record carrying the cursor reached after the
preceding rows — the expansion of the most recent preceding date marker,
or the unknown-date placeholder when no marker has appeared (a marker-free
prefix leaves the cursor at its initial value); a 6-digit marker expands as
`YYMMDD → 20YY-MM-DD` and an 8-digit one as `YYYYMMDD → YYYY-MM-DD`; and on
the rows `[date 250525, A 80, B 90, date 20240101, C 70]` records A and B
carry `2025-05-25` and record C carries `2024-01-01`. -/
theorem C2_date_cursor_propagation :
    (∀ course cur acc pre a b post x,
      Row.raise ∉ pre →
      isDateRow (pyStrip a) = false →
      pyStrip a ≠ "" → pyStrip a ∉ sentinels →
      pyFloat (pyStrip b) = some x → 30 ≤ x.toRat → x.toRat ≤ 150 →
      (runRows course cur acc (pre ++ Row.cells a b :: post)).1 =
        (runRows course cur acc pre).1 ++
          { date := (cursorAfter cur pre).getD unknownDate, course := course,
            name := pyStrip a, total := pyInt x } ::
          emittedFrom course (cursorAfter cur pre) post)
    ∧ (∀ cur pre, (∀ a b, Row.cells a b ∈ pre → isDateRow (pyStrip a) = false) →
        cursorAfter cur pre = cur)
    ∧ stepDate none "250525" = some "2025-05-25"
    ∧ stepDate none "20240101" = some "2024-01-01"
    ∧ emittedFrom "c" none
        [Row.cells "250525" "", Row.cells "A" "80", Row.cells "B" "90",
         Row.cells "20240101" "", Row.cells "C" "70"] =
      [{ date := "2025-05-25", course := "c", name := "A", total := 80 },
       { date := "2025-05-25", course := "c", name := "B", total := 90 },
       { date := "2024-01-01", course := "c", name := "C", total := 70 }] := by
  refine ⟨?_, ?_, by decide, by decide, by decide⟩
  · intro course cur acc pre a b post x hpre hd hn hs hf h30 h150
    rw [runRows_append course cur acc pre _ hpre, runRows_cons_cells, runRows_fst_acc]
    rw [rowEmit_score course (cursorAfter cur pre) a b x hd hn hs hf ⟨h30, h150⟩]
    rw [show stepCursor (cursorAfter cur pre) a = cursorAfter cur pre from by
      simp [stepCursor, hd]]
    simp
  · intro cur pre h
    exact cursorAfter_no_marker pre cur h

theorem C2_date_cursor_propagation_witness :
    (runRows "c" none [] ([Row.cells "250525" "x"] ++ Row.cells "A" "80" :: [])).1 =
      (runRows "c" none [] [Row.cells "250525" "x"]).1 ++
        { date := (cursorAfter none [Row.cells "250525" "x"]).getD unknownDate,
          course := "c", name := pyStrip "A", total := pyInt ⟨80, 0⟩ } ::
        emittedFrom "c" (cursorAfter none [Row.cells "250525" "x"]) [] :=
  C2_date_cursor_propagation.1 "c" none [] [Row.cells "250525" "x"] "A" "80" [] ⟨80, 0⟩
    (by decide) (by decide) (by decide) (by decide) (by decide)
    (by norm_num [PyNum.toRat]) (by norm_num [PyNum.toRat])

/-- C5: the venue filter and the player filter are idempotent and commute,
and each filter derives a sublist view of the table it is given (the
underlying table itself is untouched — the embedding's filters are pure
functions from table to view). -/
theorem C5_filters_idempotent_commute :
    ∀ (t : List PRecord) (sel : List String) (p : String),
      venueFilter sel (venueFilter sel t) = venueFilter sel t ∧
      playerFilter p (playerFilter p t) = playerFilter p t ∧
      venueFilter sel (playerFilter p t) = playerFilter p (venueFilter sel t) ∧
      (venueFilter sel t).Sublist t ∧ (playerFilter p t).Sublist t := by
  intro t sel p
  refine ⟨?_, ?_, ?_, ?_, ?_⟩
  · simp [venueFilter, List.filter_filter]
  · unfold playerFilter
    by_cases hp : p = "전체보기"
    · simp [hp]
    · simp [hp, List.filter_filter]
  · unfold venueFilter playerFilter
    by_cases hp : p = "전체보기"
    · simp [hp]
    · simp only [hp, if_false, List.filter_filter]
      apply List.filter_congr
      intro x _
      exact Bool.and_comm _ _
  · exact List.filter_sublist _
  · unfold playerFilter
    by_cases hp : p = "전체보기"
    · simp [hp]
    · simp only [hp, if_false]
      exact List.filter_sublist _

/-- C6: the best-score metric is the minimum total of the filtered view
when the view is non-empty; on an empty view it is the defined `NaN`
placeholder, rendered as the text `nan 타` without crashing. -/
theorem C6_best_score_min :
    ∀ (t : List PRecord) (sel : List String) (p : String),
      (filteredView sel p t ≠ [] →
        ∃ m, best_score (filteredView sel p t) = some m ∧
          m ∈ (filteredView sel p t).map PRecord.total ∧
          ∀ x ∈ (filteredView sel p t).map PRecord.total, m ≤ x) ∧
      (filteredView sel p t = [] →
        best_score (filteredView sel p t) = none ∧
        renderBest (best_score (filteredView sel p t)) = "nan 타") := by
  intro t sel p
  constructor
  · intro h
    apply intList_min_spec
    intro hc
    exact h (by simpa using hc)
  · intro h
    rw [h]
    exact ⟨rfl, rfl⟩

theorem C6_best_score_min_witness :
    ∃ m, best_score (filteredView ["c"] "전체보기" [⟨some 1, "c", "A", 77⟩]) = some m ∧
      m ∈ (filteredView ["c"] "전체보기" [⟨some 1, "c", "A", 77⟩]).map PRecord.total ∧
      ∀ x ∈ (filteredView ["c"] "전체보기" [⟨some 1, "c", "A", 77⟩]).map PRecord.total,
        m ≤ x :=
  (C6_best_score_min [⟨some 1, "c", "A", 77⟩] ["c"] "전체보기").1 (by decide)

/-- C7: the recent-score metric is the total of the last record of the
date-ascending-sorted filtered view — which dominates every record of the
view in the date order, i.e. is chronologically last — when the view is
non-empty, and the zero placeholder when it is empty. -/
theorem C7_recent_score :
    ∀ (t : List PRecord) (sel : List String) (p : String),
      (filteredView sel p t = [] → recent_score (filteredView sel p t) = 0) ∧
      (∀ h : filteredView sel p t ≠ [],
        recent_score (filteredView sel p t) =
          ((filteredView sel p t).getLast h).total ∧
        ∀ r ∈ filteredView sel p t, rowLe r ((filteredView sel p t).getLast h)) := by
  intro t sel p
  constructor
  · intro h
    rw [h]
    rfl
  · intro h
    refine ⟨?_, sorted_last_max (filteredView_sorted sel p t) h⟩
    unfold recent_score
    rw [List.getLast?_eq_getLast _ h]

theorem C7_recent_score_witness :
    recent_score (filteredView ["c"] "전체보기"
      [⟨some 2, "c", "A", 70⟩, ⟨some 1, "c", "B", 80⟩]) = 70 := by
  have h := (C7_recent_score [⟨some 2, "c", "A", 70⟩, ⟨some 1, "c", "B", 80⟩]
    ["c"] "전체보기").2 (by decide)
  rw [h.1]
  decide

end Parkgolf
